import Mathlib

/-!
Verification of the graph-gitlab cache-directory subsystem and the GitLab
paginated HTTP client, as a shallow embedding.

The repository snapshot holds `src/provider/GitlabClient.ts` (embedded here
literally) and the test file `src/__tests__/cacheDirectory.test.ts`.  The
implementation file `src/cacheDirectory.ts` exercised by those tests is not
in the snapshot, so its four operations (`getDefaultCacheDirectory`,
`writeJsonToPath`, `symlink`, `walkDirectory`) are modelled from the
specification's component contracts (spec §4.1–§4.4), with the tests fixing
the concrete observable shapes.  Stateful filesystem code is embedded as
pure functions producing an explicit list of filesystem effects, which a
small-step interpreter applies to an explicit filesystem state; the
effect list doubles as the observable trace used by the temporal ordering
claims.
-/

set_option maxRecDepth 8000

namespace GraphGitlab

/-! ## JSON values and `JSON.stringify(value, null, 2)` -/

/-- A JSON value, the serializable payload accepted by the durable writer. -/
inductive Json where
  | null : Json
  | bool (b : Bool) : Json
  | num (n : Int) : Json
  | str (s : String) : Json
  | arr (elems : List Json) : Json
  | obj (fields : List (String × Json)) : Json

/-- JSON string escaping for one character, as `JSON.stringify` performs it
on the common escapes. -/
def escapeChar (c : Char) : String :=
  if c = '"' then "\\\""
  else if c = '\\' then "\\\\"
  else if c = '\n' then "\\n"
  else if c = '\t' then "\\t"
  else if c = '\r' then "\\r"
  else String.singleton c

/-- A JSON string literal: quotes around the escaped characters. -/
def quoteString (s : String) : String :=
  "\"" ++ String.join (s.toList.map escapeChar) ++ "\""

/-- Indentation prefix of `2*n` spaces at nesting depth `n` under the
2-space gap of `JSON.stringify(v, null, 2)`. -/
def indentOf (n : Nat) : String := String.join (List.replicate n "  ")

mutual

/-- Rendering of `JSON.stringify(v, null, 2)` at nesting depth `ind`: empty composites
print flat, non-empty composites put each member on its own line indented by
`2*(ind+1)` spaces, closing bracket indented by `2*ind` spaces. -/
def stringifyAux : Nat → Json → String
  | _, .null => "null"
  | _, .bool true => "true"
  | _, .bool false => "false"
  | _, .num n => toString n
  | _, .str s => quoteString s
  | _, .arr [] => "[]"
  | ind, .arr (e :: es) =>
      "[\n" ++ String.intercalate ",\n" (stringifyList (ind + 1) (e :: es)) ++
        "\n" ++ indentOf ind ++ "]"
  | _, .obj [] => "\x7b\x7d"
  | ind, .obj (f :: fs) =>
      "\x7b\n" ++ String.intercalate ",\n" (stringifyFields (ind + 1) (f :: fs)) ++
        "\n" ++ indentOf ind ++ "\x7d"

/-- The rendered lines of an array's elements. -/
def stringifyList : Nat → List Json → List String
  | _, [] => []
  | ind, e :: es => (indentOf ind ++ stringifyAux ind e) :: stringifyList ind es

/-- The rendered lines of an object's fields. -/
def stringifyFields : Nat → List (String × Json) → List String
  | _, [] => []
  | ind, (k, v) :: fs =>
      (indentOf ind ++ quoteString k ++ ": " ++ stringifyAux ind v) ::
        stringifyFields ind fs

end

/-- Serialization `JSON.stringify(v, null, 2)`: rendering at top-level depth 0. -/
def jsonStringify (v : Json) : String := stringifyAux 0 v

/-! ## Path resolution (spec §4.1, Path Resolver) -/

/-- Modelled from the spec: `getDefaultCacheDirectory` (the implementation
file `src/cacheDirectory.ts` is absent from the snapshot).  Spec §4.1:
returns `<processCurrentWorkingDirectory>/.j1-integration`, recomputed from
the ambient working directory on every call; the ambient working directory
is passed explicitly, so each call is a pure function of the working
directory at call time. -/
def getDefaultCacheDirectory (cwd : String) : String :=
  cwd ++ "/.j1-integration"

/-- Modelled from the spec: path resolution, spec §4.1:
`(cacheDirectory ?? defaultCacheDirectory()) + '/' + relativePath`, plain
concatenation with a single separator and no normalization. -/
def resolvePath (cwd : String) (cacheDirectory : Option String) (rel : String) : String :=
  (cacheDirectory.getD (getDefaultCacheDirectory cwd)) ++ "/" ++ rel

/-- Split a character list at `/` separators; `cur` is the reversed current
segment. -/
def segsAux : List Char → List Char → List String
  | [], cur => [String.mk cur.reverse]
  | c :: cs, cur =>
    if c = '/' then String.mk cur.reverse :: segsAux cs []
    else segsAux cs (c :: cur)

/-- Canonical segment form of a slash-separated path: split on `/` and drop
empty segments (so `"//a/b"` and `"/a/b"` denote the same filesystem path,
matching the path normalization of the underlying filesystem). -/
def segsOf (p : String) : List String :=
  (segsAux p.toList []).filter (fun s => s ≠ "")

/-! ## Filesystem state and effects -/

/-- A non-directory filesystem node: a regular file with raw text content,
or a symbolic link storing its (absolute, segment-form) target path. -/
inductive FsNode where
  | file (content : String)
  | link (target : List String)
deriving DecidableEq

/-- Filesystem state: the set of existing directories and the stored
non-directory nodes, each keyed by its absolute path in segment form. -/
structure Fs where
  dirs : List (List String)
  nodes : List (List String × FsNode)
deriving DecidableEq

/-- The empty filesystem (the test suite's reset volume). -/
def emptyFs : Fs := ⟨[], []⟩

/-- One observable filesystem effect issued by an operation, in program
order.  `mkdirRecursive` is the single recursive directory-creation call;
`writeFile` and `symlinkCreate` are the terminal operations. -/
inductive FsEffect where
  | mkdirRecursive (dir : List String)
  | writeFile (path : List String) (content : String)
  | symlinkCreate (target : List String) (linkPath : List String)
deriving DecidableEq

/-- Replace the node stored at `p`, or add it if absent (create-or-truncate
semantics of a write; link creation at a fresh path). -/
def upsertNode (p : List String) (n : FsNode)
    (nodes : List (List String × FsNode)) : List (List String × FsNode) :=
  nodes.filter (fun kv => kv.1 ≠ p) ++ [(p, n)]

/-- Every non-empty ancestor of `d`, `d` itself included: what
`mkdir(d, { recursive: true })` creates. -/
def allAncestors (d : List String) : List (List String) :=
  (List.range d.length).map (fun k => d.take (k + 1))

/-- Apply one filesystem effect to the state. -/
def applyEffect (fs : Fs) : FsEffect → Fs
  | .mkdirRecursive d => { fs with dirs := fs.dirs ++ allAncestors d }
  | .writeFile p c => { fs with nodes := upsertNode p (.file c) fs.nodes }
  | .symlinkCreate tgt lp => { fs with nodes := upsertNode lp (.link tgt) fs.nodes }

/-- Run a trace of filesystem effects left to right. -/
def runEffects (fs : Fs) (effs : List FsEffect) : Fs :=
  effs.foldl applyEffect fs

/-- Lookup in `lstat` style: the node stored at `p`, without following links. -/
def lookupNode (fs : Fs) (p : List String) : Option FsNode :=
  (fs.nodes.find? (fun kv => kv.1 == p)).map Prod.snd

/-- Stat-following read of the file at `p`: follow symbolic links (bounded
by `fuel` to keep link cycles from diverging) until a regular file is
reached, returning its content; `none` models a failing read. -/
def readFile (fs : Fs) : Nat → List String → Option String
  | 0, _ => none
  | fuel + 1, p =>
    match lookupNode fs p with
    | some (.file c) => some c
    | some (.link t) => readFile fs fuel t
    | none => none

/-- Check `lstat(p).isSymbolicLink()`: the node stored at `p` is a symbolic link
(the link itself, not its target). -/
def lstatIsSymlink (fs : Fs) (p : List String) : Bool :=
  match lookupNode fs p with
  | some (.link _) => true
  | _ => false

/-! ## Cache-directory operations (spec §4.2–§4.4) -/

/-- Modelled from the spec: `writeJsonToPath` (spec §4.2, Durable Writer;
the implementation file is absent from the snapshot).  Resolves the target
path, then issues exactly two effects in program order: one recursive
creation of the target's parent directory chain, then the write of
`JSON.stringify(data, null, 2)` to the resolved path. -/
def writeJsonToPath (cwd : String) (cacheDirectory : Option String)
    (relPath : String) (data : Json) : List FsEffect :=
  let resolved := segsOf (resolvePath cwd cacheDirectory relPath)
  [.mkdirRecursive resolved.dropLast, .writeFile resolved (jsonStringify data)]

/-- Modelled from the spec: `symlink` (spec §4.3, Link Builder; the
implementation file is absent from the snapshot).  Resolves source and
destination against the same cache directory, then issues exactly two
effects in program order: one recursive creation of the destination's
parent directory chain, then creation of a symbolic link at the resolved
destination whose stored target is the resolved absolute source path. -/
def symlink (cwd : String) (cacheDirectory : Option String)
    (sourcePath destinationPath : String) : List FsEffect :=
  let src := segsOf (resolvePath cwd cacheDirectory sourcePath)
  let dst := segsOf (resolvePath cwd cacheDirectory destinationPath)
  [.mkdirRecursive dst.dropLast, .symlinkCreate src dst]

/-- Path `p` lies strictly below directory `root`. -/
def underDir (root p : List String) : Bool :=
  root.isPrefixOf p && decide (root.length < p.length)

/-- Modelled from the spec: `walkDirectory` (spec §4.4, Tree Walker; the
implementation file is absent from the snapshot).  The spec's contract is
observational: a recursive traversal with no guaranteed order that visits
every file under the resolved subtree exactly once and delivers each
file's stat-following read to the handler.  We model the list of handler
invocations: one `(filePath, data)` pair per stored node strictly below the
resolved root, `data` being the symlink-following read of that node. -/
def walkDirectory (fs : Fs) (readFuel : Nat) (cwd : String)
    (cacheDirectory : Option String) (relPath : String) :
    List (List String × Option String) :=
  (fs.nodes.filter
      (fun kv => underDir (segsOf (resolvePath cwd cacheDirectory relPath)) kv.1)).map
    (fun kv => (kv.1, readFile fs readFuel kv.1))

/-- The `data` arguments delivered to the handler, in delivery order. -/
def walkData (fs : Fs) (readFuel : Nat) (cwd : String)
    (cacheDirectory : Option String) (relPath : String) : List (Option String) :=
  (walkDirectory fs readFuel cwd cacheDirectory relPath).map Prod.snd

/-! ## The paginated GitLab client (`src/provider/GitlabClient.ts`) -/

/-- One HTTP response to a page request, at the boundary the pagination loop
observes: the raw `X-Total-Pages` header (`none` when the header is absent)
and the result of `parseResponse` on the body (`none` models the `null`
returned for an empty body or a non-JSON content type; `some records` the
parsed JSON array of one page). -/
structure PageResp (T : Type) where
  xTotalPages : Option String
  body : Option (List T)

/-- Value of a non-empty string of decimal digits. -/
def digitsValue (ds : List Char) : Nat :=
  ds.foldl (fun a c => a * 10 + (c.toNat - '0'.toNat)) 0

/-- The longest leading run of decimal digits, `none` when there is none
(the NaN case of `parseInt`). -/
def parseDigits (cs : List Char) : Option Nat :=
  let ds := cs.takeWhile (fun c => c.isDigit)
  if ds.isEmpty then none else some (digitsValue ds)

/-- JavaScript `parseInt(x, 10)` on a nullable string: skip leading
whitespace, accept an optional sign, read the longest digit run; `none`
models NaN (header absent, or no leading digits). -/
def jsParseInt : Option String → Option Int
  | none => none
  | some s =>
    match s.toList.dropWhile (fun c => c.isWhitespace) with
    | '-' :: rest => (parseDigits rest).map (fun n => -(n : Int))
    | '+' :: rest => (parseDigits rest).map (fun n => (n : Int))
    | cs => (parseDigits cs).map (fun n => (n : Int))

/-- JavaScript `page < totalPages` where `totalPages` may be NaN (`none`):
any comparison against NaN is false. -/
def ltTotalPages (p : Nat) (tp : Option Int) : Bool :=
  match tp with
  | none => false
  | some t => decide ((p : Int) < t)

/-- JavaScript `page < pageLimit` where `pageLimit` may be
`Number.POSITIVE_INFINITY` (`none`): every finite page is below infinity. -/
def ltPageLimit (p : Nat) (pl : Option Int) : Bool :=
  match pl with
  | none => true
  | some l => decide ((p : Int) < l)

/-- Evaluation of `maxPages || Number.POSITIVE_INFINITY`: an absent argument, or the
falsy number `0`, yields no page limit. -/
def pageLimitOf (maxPages : Option Int) : Option Int :=
  match maxPages with
  | none => none
  | some m => if m = 0 then none else some m

/-- The `do`/`while` guard of `makePaginatedRequest`:
`page < totalPages && page < pageLimit`, with `totalPages` parsed from the
current response's `X-Total-Pages` header by `parseInt(·, 10)`. -/
def pageGuard {T : Type} (server : Nat → PageResp T) (pl : Option Int) (p : Nat) : Bool :=
  ltTotalPages p (jsParseInt (server p).xTotalPages) && ltPageLimit p pl

/-- The body of `makePaginatedRequest`'s `do`/`while` loop: `page` is the
number of pages fetched so far, `acc` the pushed per-page results, `reqs`
the trace of page numbers requested so far.  Each iteration requests page
`page + 1`, pushes the parsed body when it is non-null, and repeats while
the guard holds.  `fuel` bounds the iteration count (the source loop can
run unboundedly when the server keeps reporting more pages); `none` means
the fuel ran out before the loop finished. -/
def paginatedLoop {T : Type} (server : Nat → PageResp T) (pl : Option Int) :
    Nat → Nat → List (List T) → List Nat → Option (List (List T) × List Nat)
  | 0, _, _, _ => none
  | fuel + 1, page, acc, reqs =>
    let p := page + 1
    let acc2 := match (server p).body with
      | some r => acc ++ [r]
      | none => acc
    let reqs2 := reqs ++ [p]
    if pageGuard server pl p then paginatedLoop server pl fuel p acc2 reqs2
    else some (acc2, reqs2)

/-- Embedding of `makePaginatedRequest(method, url, maxPages, params)`: run the page
loop from `page = 0` with `pageLimit = maxPages || Infinity` and return
`[].concat(...results)` (the flattened records) together with the trace of
requested page numbers.  The `server` argument abstracts `makeRequest`
composed with the fixed `method`/`url`/`params`: the response to the
request for a given page number. -/
def makePaginatedRequest {T : Type} (server : Nat → PageResp T)
    (maxPages : Option Int) (fuel : Nat) : Option (List T × List Nat) :=
  (paginatedLoop server (pageLimitOf maxPages) fuel 0 [] []).map
    (fun pr => (pr.1.flatten, pr.2))

/-- The URL string built for one page request:
`` `${url}?page=${++page}&per_page=1${queryParams ? '&' + queryParams : ''}` ``
with `queryParams` the `&`-joined `k=v` rendering of `params`. -/
def requestUrl (url : String) (page : Nat) (params : List (String × String)) : String :=
  let queryParams := String.intercalate "&" (params.map (fun kv => kv.1 ++ "=" ++ kv.2))
  url ++ "?page=" ++ toString page ++ "&per_page=1" ++
    (if queryParams = "" then "" else "&" ++ queryParams)

/-- The resource path of `fetchProjectMergeRequests`:
`` `/projects/${projectId}/merge_requests` ``. -/
def mergeRequestsUrl (projectId : Int) : String :=
  "/projects/" ++ toString projectId ++ "/merge_requests"

/-- Embedding of `fetchProjectMergeRequests(projectId)`: delegates to
`makePaginatedRequest` with `maxPages = 1` (third argument `1` in the
source) against the merge-requests resource of the project. -/
def fetchProjectMergeRequests {T : Type} (server : Nat → PageResp T)
    (fuel : Nat) : Option (List T × List Nat) :=
  makePaginatedRequest server (some 1) fuel

/-! ## Helper lemmas on node lookup -/

theorem find?_filter_ne (nodes : List (List String × FsNode)) (p q : List String)
    (hne : q ≠ p) :
    (nodes.filter (fun kv => kv.1 ≠ p)).find? (fun kv => kv.1 == q)
      = nodes.find? (fun kv => kv.1 == q) := by
  have hpq : ¬ p = q := fun h => hne h.symm
  induction nodes with
  | nil => rfl
  | cons kv rest ih =>
    by_cases h1 : kv.1 = p <;> by_cases h3 : kv.1 = q <;>
      simp_all [List.filter_cons, List.find?_cons]

theorem upsertNode_find_self (p : List String) (n : FsNode)
    (nodes : List (List String × FsNode)) :
    (upsertNode p n nodes).find? (fun kv => kv.1 == p) = some (p, n) := by
  unfold upsertNode
  rw [List.find?_append]
  have h1 : (nodes.filter (fun kv => kv.1 ≠ p)).find? (fun kv => kv.1 == p) = none := by
    rw [List.find?_eq_none]
    intro kv hkv
    have h2 := List.of_mem_filter hkv
    simp at h2 ⊢
    exact h2
  rw [h1]
  simp

/-- Looking up the freshly written path finds the new node. -/
theorem lookupNode_upsert_self (fs : Fs) (p : List String) (n : FsNode) :
    lookupNode { fs with nodes := upsertNode p n fs.nodes } p = some n := by
  simp [lookupNode, upsertNode_find_self]

/-- Writing at `p` leaves lookups at any other path unchanged. -/
theorem lookupNode_upsert_ne (fs : Fs) (p : List String) (n : FsNode)
    (q : List String) (hne : q ≠ p) :
    lookupNode { fs with nodes := upsertNode p n fs.nodes } q = lookupNode fs q := by
  have hpq : ¬ p = q := fun h => hne h.symm
  unfold lookupNode upsertNode
  rw [List.find?_append, find?_filter_ne fs.nodes p q hne]
  simp [List.find?_cons, hpq]

/-! ## C6 : default cache directory -/

/-- C6: every call to `getDefaultCacheDirectory` returns the working
directory at call time concatenated with "/.j1-integration"; the value is a
function of the ambient working directory at each call, so two calls between
which the working directory changes return correspondingly different
results. -/
theorem getDefaultCacheDirectory_recomputed (cwd cwd2 : String) :
    getDefaultCacheDirectory cwd = cwd ++ "/.j1-integration" ∧
    (cwd ≠ cwd2 → getDefaultCacheDirectory cwd ≠ getDefaultCacheDirectory cwd2) := by
  refine ⟨rfl, fun hne he => hne ?_⟩
  have h := congrArg String.data he
  simp only [getDefaultCacheDirectory, String.data_append] at h
  exact String.ext (List.append_cancel_right h)

/-- Witness for C6 at the working directories "/a" and "/b". -/
theorem getDefaultCacheDirectory_recomputed_witness :
    (("/a" : String) ≠ "/b") ∧
      getDefaultCacheDirectory "/a" ≠ getDefaultCacheDirectory "/b" :=
  ⟨by decide, (getDefaultCacheDirectory_recomputed "/a" "/b").2 (by decide)⟩

/-! ## C3 : directory creation strictly precedes the terminal operation -/

/-- The effect is the recursive directory-creation call. -/
def isMkdirEff : FsEffect → Bool
  | .mkdirRecursive _ => true
  | _ => false

/-- The effect is a terminal operation (file write or link creation). -/
def isTerminalEff : FsEffect → Bool
  | .mkdirRecursive _ => false
  | _ => true

/-- C3: in the effect trace of every `writeJsonToPath` call and of every
`symlink` call, the single recursive directory-creation effect occurs, the
terminal effect (the write, respectively the link creation) occurs, and the
index of the directory creation is strictly below the index of the terminal
effect: the write or link is never attempted before the one recursive
directory-creation step. -/
theorem mkdir_strictly_precedes_terminal (cwd : String) (cd : Option String)
    (p s d : String) (v : Json) :
    ((writeJsonToPath cwd cd p v).findIdx isMkdirEff
        < (writeJsonToPath cwd cd p v).findIdx isTerminalEff ∧
      (writeJsonToPath cwd cd p v).findIdx isTerminalEff
        < (writeJsonToPath cwd cd p v).length ∧
      (writeJsonToPath cwd cd p v).countP isMkdirEff = 1) ∧
    ((symlink cwd cd s d).findIdx isMkdirEff
        < (symlink cwd cd s d).findIdx isTerminalEff ∧
      (symlink cwd cd s d).findIdx isTerminalEff < (symlink cwd cd s d).length ∧
      (symlink cwd cd s d).countP isMkdirEff = 1) := by
  refine ⟨⟨?_, ?_, ?_⟩, ⟨?_, ?_, ?_⟩⟩ <;>
    simp [writeJsonToPath, symlink, List.findIdx, List.findIdx.go,
      isMkdirEff, isTerminalEff, List.countP, List.countP.go]

/-! ## C8 : writing without an explicit cache directory -/

/-- C8: a `writeJsonToPath` call with no explicit cache directory writes
under `getDefaultCacheDirectory`: starting from an empty filesystem, the
resulting filesystem stores exactly one node, the file at
`getDefaultCacheDirectory cwd ++ "/" ++ p` holding the serialized value, and
reading that path back returns the serialization. -/
theorem writeJsonToPath_default_directory (cwd p : String) (v : Json) :
    (runEffects emptyFs (writeJsonToPath cwd none p v)).nodes
      = [(segsOf (getDefaultCacheDirectory cwd ++ "/" ++ p),
          .file (jsonStringify v))] ∧
    readFile (runEffects emptyFs (writeJsonToPath cwd none p v)) 1
        (segsOf (getDefaultCacheDirectory cwd ++ "/" ++ p))
      = some (jsonStringify v) := by
  constructor
  · rfl
  · simp [runEffects, writeJsonToPath, applyEffect, upsertNode, readFile,
      lookupNode, resolvePath, emptyFs]

/-! ## C2 : write-then-read round trip -/

/-- C2: for every starting filesystem (any previously existing file at the
target is replaced), cache directory choice, relative path and value, after
the effects of `writeJsonToPath` run, reading the resolved path returns
exactly the 2-space pretty-printed JSON serialization of the value, and the
missing ancestor directories of the target have all been created. -/
theorem writeJsonToPath_roundTrip (fs : Fs) (cwd : String) (cd : Option String)
    (p : String) (v : Json) (fuel : Nat) :
    readFile (runEffects fs (writeJsonToPath cwd cd p v)) (fuel + 1)
        (segsOf (resolvePath cwd cd p)) = some (jsonStringify v) ∧
    (runEffects fs (writeJsonToPath cwd cd p v)).dirs
      = fs.dirs ++ allAncestors ((segsOf (resolvePath cwd cd p)).dropLast) := by
  constructor
  · have h := lookupNode_upsert_self
      (applyEffect fs (.mkdirRecursive ((segsOf (resolvePath cwd cd p)).dropLast)))
      (segsOf (resolvePath cwd cd p)) (.file (jsonStringify v))
    have h2 : lookupNode (runEffects fs (writeJsonToPath cwd cd p v))
        (segsOf (resolvePath cwd cd p)) = some (.file (jsonStringify v)) := h
    simp [readFile, h2]
  · rfl

/-! ## C5 : symlink creation -/

/-- C5: after the effects of `symlink dir src dst` run on a filesystem in
which the resolved source path holds a regular file with content `c` (and
the resolved destination differs from the resolved source), the destination
stores a symbolic link (an `lstat` reports a symbolic link, not a regular
file) whose stored target is the resolved absolute source path, and a
stat-following read of the resolved destination returns exactly `c`. -/
theorem symlink_spec (fs : Fs) (cwd : String) (cd : Option String)
    (src dst : String) (c : String) (fuel : Nat)
    (hsrc : lookupNode fs (segsOf (resolvePath cwd cd src)) = some (.file c))
    (hne : segsOf (resolvePath cwd cd dst) ≠ segsOf (resolvePath cwd cd src)) :
    lookupNode (runEffects fs (symlink cwd cd src dst))
        (segsOf (resolvePath cwd cd dst))
      = some (.link (segsOf (resolvePath cwd cd src))) ∧
    lstatIsSymlink (runEffects fs (symlink cwd cd src dst))
        (segsOf (resolvePath cwd cd dst)) = true ∧
    readFile (runEffects fs (symlink cwd cd src dst)) (fuel + 2)
        (segsOf (resolvePath cwd cd dst)) = some c := by
  have h1 : lookupNode (runEffects fs (symlink cwd cd src dst))
      (segsOf (resolvePath cwd cd dst))
        = some (.link (segsOf (resolvePath cwd cd src))) :=
    lookupNode_upsert_self
      (applyEffect fs (.mkdirRecursive ((segsOf (resolvePath cwd cd dst)).dropLast)))
      (segsOf (resolvePath cwd cd dst)) (.link (segsOf (resolvePath cwd cd src)))
  have h2 : lookupNode (runEffects fs (symlink cwd cd src dst))
      (segsOf (resolvePath cwd cd src)) = some (.file c) := by
    have h3 := lookupNode_upsert_ne
      (applyEffect fs (.mkdirRecursive ((segsOf (resolvePath cwd cd dst)).dropLast)))
      (segsOf (resolvePath cwd cd dst)) (.link (segsOf (resolvePath cwd cd src)))
      (segsOf (resolvePath cwd cd src)) (Ne.symm hne)
    exact h3.trans hsrc
  refine ⟨h1, ?_, ?_⟩
  · simp [lstatIsSymlink, h1]
  · simp [readFile, h1, h2]

/-- The starting filesystem of the symlink test: one regular file at
`/test.json`. -/
def symlinkFixtureFs : Fs := ⟨[], [(segsOf "/test.json", .file "X")]⟩

/-- Witness for C5 on the test fixture: linking `/test.json` to
`/symlink.json` under cache directory "/". -/
theorem symlink_spec_witness :
    lookupNode symlinkFixtureFs (segsOf (resolvePath "/w" (some "/") "test.json"))
        = some (.file "X") ∧
    segsOf (resolvePath "/w" (some "/") "symlink.json")
        ≠ segsOf (resolvePath "/w" (some "/") "test.json") ∧
    readFile (runEffects symlinkFixtureFs (symlink "/w" (some "/") "test.json" "symlink.json")) 2
        (segsOf (resolvePath "/w" (some "/") "symlink.json")) = some "X" :=
  ⟨by decide, by decide,
    (symlink_spec symlinkFixtureFs "/w" (some "/") "test.json" "symlink.json" "X" 0
      (by decide) (by decide)).2.2⟩

/-! ## C1 : walk delivers every file exactly once -/

/-- C1 (general part): on a filesystem whose stored node paths are distinct
(as on any real filesystem), the walk delivers one handler invocation per
stored node strictly under the resolved subtree — each visited path occurs
exactly once in the invocation list — and the `data` of each invocation is
the stat-following read of that node. -/
theorem walkDirectory_once_per_file (fs : Fs) (rf : Nat) (cwd : String)
    (cd : Option String) (rel : String)
    (hnodup : (fs.nodes.map Prod.fst).Nodup) :
    ((walkDirectory fs rf cwd cd rel).map Prod.fst
        = (fs.nodes.map Prod.fst).filter
            (fun q => underDir (segsOf (resolvePath cwd cd rel)) q)) ∧
    ((walkDirectory fs rf cwd cd rel).map Prod.fst).Nodup ∧
    (∀ q d, (q, d) ∈ walkDirectory fs rf cwd cd rel → d = readFile fs rf q) := by
  have hfst : (walkDirectory fs rf cwd cd rel).map Prod.fst
      = (fs.nodes.map Prod.fst).filter
          (fun q => underDir (segsOf (resolvePath cwd cd rel)) q) := by
    unfold walkDirectory
    rw [List.map_map, List.filter_map]
    rfl
  refine ⟨hfst, ?_, fun q d hmem => ?_⟩
  · rw [hfst]
    exact hnodup.filter _
  · rcases List.mem_map.1 hmem with ⟨kv, hkv, heq⟩
    have hq : kv.1 = q := congrArg Prod.fst heq
    have hd : readFile fs rf kv.1 = d := congrArg Prod.snd heq
    rw [← hq, hd]

/-- The populated filesystem of the walk test: four entity files and a
summary under `graph`, plus an unrelated file under `index`. -/
def walkFixtureFs : Fs :=
  ⟨[],
   [(segsOf "/.j1-integration/index/entities/cat/1.json", .file "meow"),
    (segsOf "/.j1-integration/graph/summary.json", .file "summary"),
    (segsOf "/.j1-integration/graph/step-1/entities/1.json", .file "1"),
    (segsOf "/.j1-integration/graph/step-1/entities/2.json", .file "2"),
    (segsOf "/.j1-integration/graph/step-1/entities/3.json", .file "3"),
    (segsOf "/.j1-integration/graph/step-2/entities/4.json", .file "4")]⟩

/-- Witness for C1 on the test fixture: walking `graph` yields exactly 5
invocations whose data multiset is `{"summary","1","2","3","4"}` (the
`meow` file outside the subtree is not delivered), and, by the theorem, no
path is delivered twice. -/
theorem walkDirectory_once_per_file_witness :
    (walkFixtureFs.nodes.map Prod.fst).Nodup ∧
    (walkData walkFixtureFs 1 "/w" (some "/.j1-integration") "graph").length = 5 ∧
    ((walkData walkFixtureFs 1 "/w" (some "/.j1-integration") "graph" :
        List (Option String)) : Multiset (Option String))
      = {some "summary", some "1", some "2", some "3", some "4"} ∧
    ((walkDirectory walkFixtureFs 1 "/w" (some "/.j1-integration") "graph").map
        Prod.fst).Nodup :=
  ⟨by decide, by decide, by decide,
    (walkDirectory_once_per_file walkFixtureFs 1 "/w" (some "/.j1-integration")
        "graph" (by decide)).2.1⟩

/-! ## C4 : symlink transparency -/

/-- The resolved source path, in segment form, of one
(source, content, destination) triple. -/
def srcSegOf (cwd : String) (cd : Option String)
    (x : (String × String) × String) : List String :=
  segsOf (resolvePath cwd cd x.1.1)

/-- The resolved destination path, in segment form, of one triple. -/
def dstSegOf (cwd : String) (cd : Option String)
    (x : (String × String) × String) : List String :=
  segsOf (resolvePath cwd cd x.2)

/-- The filesystem holding the original subtree: one regular file per
triple, at its resolved source path, holding the triple's content. -/
def baseFsOf (cwd : String) (cd : Option String) (ds : List (List String))
    (pairs : List ((String × String) × String)) : Fs :=
  ⟨ds, pairs.map (fun x => (srcSegOf cwd cd x, .file x.1.2))⟩

/-- The filesystem after `symlink`-ing every file of the original subtree
to its destination, in order. -/
def linkedFsOf (cwd : String) (cd : Option String) (ds : List (List String))
    (pairs : List ((String × String) × String)) : Fs :=
  runEffects (baseFsOf cwd cd ds pairs)
    (pairs.flatMap (fun x => symlink cwd cd x.1.1 x.2))

/-- Writing at a path no node occupies appends the new node. -/
theorem upsertNode_fresh (p : List String) (n : FsNode)
    (nodes : List (List String × FsNode)) (h : p ∉ nodes.map Prod.fst) :
    upsertNode p n nodes = nodes ++ [(p, n)] := by
  unfold upsertNode
  congr 1
  apply List.filter_eq_self.2
  intro kv hkv
  simp only [decide_eq_true_eq]
  exact fun he => h (he ▸ List.mem_map_of_mem Prod.fst hkv)

/-- In a list of entries with pairwise-distinct keys, `find?` at the key of
a member entry returns exactly that entry. -/
theorem find?_map_entry {α : Type} (f : α → List String × FsNode)
    (ps : List α) (x : α) (k : List String) (hx : x ∈ ps) (hk : (f x).1 = k)
    (hnd : (ps.map (fun a => (f a).1)).Nodup) :
    (ps.map f).find? (fun kv => kv.1 == k) = some (f x) := by
  induction ps with
  | nil => cases hx
  | cons y rest ih =>
    rcases List.mem_cons.1 hx with h | h
    · subst h
      rw [List.map_cons, List.find?_cons_of_pos]
      simp [hk]
    · have hxk : (f x).1 ∈ rest.map (fun a => (f a).1) :=
        List.mem_map_of_mem (fun a => (f a).1) h
      have hne : ((f y).1 == k) = false := by
        rw [beq_eq_false_iff_ne]
        intro he
        have h2 : (f y).1 ∈ rest.map (fun a => (f a).1) := by
          rw [he.trans hk.symm]
          exact hxk
        exact (List.nodup_cons.1 hnd).1 h2
      rw [List.map_cons, List.find?_cons]
      simp only [hne]
      exact ih h (List.nodup_cons.1 hnd).2

/-- Running the symlink effects of a list of triples over a filesystem in
which every destination is fresh appends one link node per triple, in
order. -/
theorem runEffects_symlinks_nodes (cwd : String) (cd : Option String)
    (ps : List ((String × String) × String)) (fs : Fs)
    (hfresh : ∀ x ∈ ps, dstSegOf cwd cd x ∉ fs.nodes.map Prod.fst)
    (hnd : (ps.map (dstSegOf cwd cd)).Nodup) :
    (runEffects fs (ps.flatMap (fun x => symlink cwd cd x.1.1 x.2))).nodes
      = fs.nodes
          ++ ps.map (fun x => (dstSegOf cwd cd x, .link (srcSegOf cwd cd x))) := by
  induction ps generalizing fs with
  | nil => simp [runEffects]
  | cons x rest ih =>
    rw [List.flatMap_cons]
    have hrun : runEffects fs
        (symlink cwd cd x.1.1 x.2 ++ rest.flatMap (fun y => symlink cwd cd y.1.1 y.2))
          = runEffects (runEffects fs (symlink cwd cd x.1.1 x.2))
              (rest.flatMap (fun y => symlink cwd cd y.1.1 y.2)) := by
      simp [runEffects, List.foldl_append]
    rw [hrun]
    have hnodes1 : (runEffects fs (symlink cwd cd x.1.1 x.2)).nodes
        = fs.nodes ++ [(dstSegOf cwd cd x, .link (srcSegOf cwd cd x))] :=
      upsertNode_fresh _ _ _ (hfresh x (List.mem_cons_self x rest))
    have hfresh1 : ∀ y ∈ rest,
        dstSegOf cwd cd y ∉ (runEffects fs (symlink cwd cd x.1.1 x.2)).nodes.map Prod.fst := by
      intro y hy
      rw [hnodes1, List.map_append]
      simp only [List.mem_append, List.map_cons, List.map_nil,
        List.mem_singleton, not_or]
      refine ⟨hfresh y (List.mem_cons_of_mem x hy), fun h => ?_⟩
      exact (List.nodup_cons.1 hnd).1
        (h ▸ List.mem_map_of_mem (dstSegOf cwd cd) hy)
    rw [ih (runEffects fs (symlink cwd cd x.1.1 x.2)) hfresh1
      (List.nodup_cons.1 hnd).2, hnodes1, List.map_cons, List.append_assoc]
    rfl

/-- C4: for every collection of (source, content, destination) triples with
pairwise-distinct resolved paths, sources under subtree A, destinations
under subtree B and disjoint from A's files, walking the symlink-populated
subtree B delivers the same data as walking the original subtree A
directly — both are the contents of the triples, so in particular the two
multisets of delivered file contents are equal (symlink transparency). -/
theorem symlink_transparency (cwd : String) (cd : Option String)
    (ds : List (List String)) (pairs : List ((String × String) × String))
    (relA relB : String) (rf : Nat)
    (hsrcA : ∀ x ∈ pairs,
      underDir (segsOf (resolvePath cwd cd relA)) (srcSegOf cwd cd x) = true)
    (hsrcB : ∀ x ∈ pairs,
      underDir (segsOf (resolvePath cwd cd relB)) (srcSegOf cwd cd x) = false)
    (hdstB : ∀ x ∈ pairs,
      underDir (segsOf (resolvePath cwd cd relB)) (dstSegOf cwd cd x) = true)
    (hnd : (pairs.map (srcSegOf cwd cd) ++ pairs.map (dstSegOf cwd cd)).Nodup) :
    walkData (linkedFsOf cwd cd ds pairs) (rf + 2) cwd cd relB
      = pairs.map (fun x => some x.1.2) ∧
    walkData (baseFsOf cwd cd ds pairs) (rf + 1) cwd cd relA
      = pairs.map (fun x => some x.1.2) ∧
    ((walkData (linkedFsOf cwd cd ds pairs) (rf + 2) cwd cd relB :
        List (Option String)) : Multiset (Option String))
      = ((walkData (baseFsOf cwd cd ds pairs) (rf + 1) cwd cd relA :
          List (Option String)) : Multiset (Option String)) := by
  obtain ⟨hndS, hndD, hdisj⟩ := List.nodup_append.1 hnd
  have hbase_keys : (baseFsOf cwd cd ds pairs).nodes.map Prod.fst
      = pairs.map (srcSegOf cwd cd) := by
    unfold baseFsOf
    rw [List.map_map]
    rfl
  have hfreshD : ∀ x ∈ pairs,
      dstSegOf cwd cd x ∉ (baseFsOf cwd cd ds pairs).nodes.map Prod.fst := by
    intro x hx hmem
    rw [hbase_keys] at hmem
    exact hdisj hmem (List.mem_map_of_mem (dstSegOf cwd cd) hx)
  have hnodes : (linkedFsOf cwd cd ds pairs).nodes
      = (baseFsOf cwd cd ds pairs).nodes
          ++ pairs.map (fun x => (dstSegOf cwd cd x, .link (srcSegOf cwd cd x))) :=
    runEffects_symlinks_nodes cwd cd pairs (baseFsOf cwd cd ds pairs) hfreshD hndD
  have hlookupSrc : ∀ x ∈ pairs,
      lookupNode (linkedFsOf cwd cd ds pairs) (srcSegOf cwd cd x)
        = some (.file x.1.2) := by
    intro x hx
    unfold lookupNode
    rw [hnodes, List.find?_append]
    have h1 : (baseFsOf cwd cd ds pairs).nodes.find?
        (fun kv => kv.1 == srcSegOf cwd cd x)
          = some (srcSegOf cwd cd x, .file x.1.2) :=
      find?_map_entry (fun y => (srcSegOf cwd cd y, .file y.1.2)) pairs x
        (srcSegOf cwd cd x) hx rfl hndS
    rw [h1]
    rfl
  have hlookupDst : ∀ x ∈ pairs,
      lookupNode (linkedFsOf cwd cd ds pairs) (dstSegOf cwd cd x)
        = some (.link (srcSegOf cwd cd x)) := by
    intro x hx
    unfold lookupNode
    rw [hnodes, List.find?_append]
    have h0 : (baseFsOf cwd cd ds pairs).nodes.find?
        (fun kv => kv.1 == dstSegOf cwd cd x) = none := by
      rw [List.find?_eq_none]
      intro kv hkv
      simp only [beq_iff_eq]
      intro he
      have h2 : kv.1 ∈ pairs.map (srcSegOf cwd cd) :=
        hbase_keys ▸ List.mem_map_of_mem Prod.fst hkv
      rw [he] at h2
      exact hdisj h2 (List.mem_map_of_mem (dstSegOf cwd cd) hx)
    have h1 : (pairs.map
        (fun y => (dstSegOf cwd cd y, FsNode.link (srcSegOf cwd cd y)))).find?
          (fun kv => kv.1 == dstSegOf cwd cd x)
            = some (dstSegOf cwd cd x, .link (srcSegOf cwd cd x)) :=
      find?_map_entry (fun y => (dstSegOf cwd cd y, .link (srcSegOf cwd cd y)))
        pairs x (dstSegOf cwd cd x) hx rfl hndD
    rw [h0, h1]
    rfl
  have hreadDst : ∀ x ∈ pairs,
      readFile (linkedFsOf cwd cd ds pairs) (rf + 2) (dstSegOf cwd cd x)
        = some x.1.2 := by
    intro x hx
    simp [readFile, hlookupDst x hx, hlookupSrc x hx]
  have hkeys : (baseFsOf cwd cd ds pairs).nodes
      = pairs.map (fun y => (srcSegOf cwd cd y, FsNode.file y.1.2)) := rfl
  have hwalkB : walkData (linkedFsOf cwd cd ds pairs) (rf + 2) cwd cd relB
      = pairs.map (fun x => some x.1.2) := by
    have hb : (baseFsOf cwd cd ds pairs).nodes.filter
        (fun kv => underDir (segsOf (resolvePath cwd cd relB)) kv.1) = [] := by
      rw [List.filter_eq_nil_iff]
      intro kv hkv
      rw [hkeys] at hkv
      rcases List.mem_map.1 hkv with ⟨y, hy, rfl⟩
      simp [hsrcB y hy]
    have hl : (pairs.map
        (fun y => (dstSegOf cwd cd y, FsNode.link (srcSegOf cwd cd y)))).filter
          (fun kv => underDir (segsOf (resolvePath cwd cd relB)) kv.1)
        = pairs.map (fun y => (dstSegOf cwd cd y, .link (srcSegOf cwd cd y))) := by
      rw [List.filter_eq_self]
      intro kv hkv
      rcases List.mem_map.1 hkv with ⟨y, hy, rfl⟩
      simp [hdstB y hy]
    unfold walkData walkDirectory
    rw [hnodes, List.filter_append, hb, hl, List.nil_append,
      List.map_map, List.map_map]
    apply List.map_congr_left
    intro x hx
    show readFile (linkedFsOf cwd cd ds pairs) (rf + 2) (dstSegOf cwd cd x)
      = some x.1.2
    exact hreadDst x hx
  have hwalkA : walkData (baseFsOf cwd cd ds pairs) (rf + 1) cwd cd relA
      = pairs.map (fun x => some x.1.2) := by
    have ha : (baseFsOf cwd cd ds pairs).nodes.filter
        (fun kv => underDir (segsOf (resolvePath cwd cd relA)) kv.1)
          = (baseFsOf cwd cd ds pairs).nodes := by
      rw [List.filter_eq_self]
      intro kv hkv
      rw [hkeys] at hkv
      rcases List.mem_map.1 hkv with ⟨y, hy, rfl⟩
      simp [hsrcA y hy]
    unfold walkData walkDirectory
    rw [ha, hkeys, List.map_map, List.map_map]
    apply List.map_congr_left
    intro x hx
    show readFile (baseFsOf cwd cd ds pairs) (rf + 1) (srcSegOf cwd cd x)
      = some x.1.2
    have h1 : lookupNode (baseFsOf cwd cd ds pairs) (srcSegOf cwd cd x)
        = some (.file x.1.2) := by
      unfold lookupNode
      rw [hkeys, find?_map_entry (fun y => (srcSegOf cwd cd y, .file y.1.2)) pairs x
        (srcSegOf cwd cd x) hx rfl hndS]
      rfl
    simp [readFile, h1]
  exact ⟨hwalkB, hwalkA, by rw [hwalkB, hwalkA]⟩

/-- The four source files of the symlink-walk test, with their contents and
symlink destinations. -/
def transparencyPairs : List ((String × String) × String) :=
  [(("graph/step-1/entities/1.json", "1"), "index/entities/type/1.json"),
   (("graph/step-1/entities/2.json", "2"), "index/entities/type/2.json"),
   (("graph/step-1/entities/3.json", "3"), "index/entities/type/3.json"),
   (("graph/step-2/entities/4.json", "4"), "index/entities/type/4.json")]

/-- Witness for C4 on the test fixture: walking `index` (populated only by
symlinks) delivers the same data multiset as walking `graph` directly. -/
theorem symlink_transparency_witness :
    ((transparencyPairs.map (srcSegOf "/w" (some "/.j1-integration"))
        ++ transparencyPairs.map (dstSegOf "/w" (some "/.j1-integration"))).Nodup) ∧
    ((walkData (linkedFsOf "/w" (some "/.j1-integration") [] transparencyPairs) 2
        "/w" (some "/.j1-integration") "index" :
        List (Option String)) : Multiset (Option String))
      = ((walkData (baseFsOf "/w" (some "/.j1-integration") [] transparencyPairs) 1
          "/w" (some "/.j1-integration") "graph" :
          List (Option String)) : Multiset (Option String)) :=
  ⟨by decide,
    (symlink_transparency "/w" (some "/.j1-integration") [] transparencyPairs
      "graph" "index" 0 (by decide) (by decide) (by decide) (by decide)).2.2⟩

/-! ## C10 : missing or non-numeric X-Total-Pages header -/

/-- C10: when the response to the first page request lacks an
`X-Total-Pages` header or carries a non-numeric value for it (so that
`parseInt` yields NaN), `makePaginatedRequest` terminates normally after
that first request — the loop guard comparing the page counter against NaN
is false — returning only the records of that single page, whatever the
page cap. -/
theorem makePaginatedRequest_nan_header {T : Type} (server : Nat → PageResp T)
    (maxPages : Option Int) (fuel : Nat)
    (h : jsParseInt (server 1).xTotalPages = none) :
    makePaginatedRequest server maxPages (fuel + 1)
      = some ((server 1).body.getD [], [1]) := by
  have hg : pageGuard server (pageLimitOf maxPages) 1 = false := by
    unfold pageGuard
    rw [h]
    rfl
  rcases hb : (server 1).body with _ | r <;>
    simp [makePaginatedRequest, paginatedLoop, hg, hb]

/-- A server whose `X-Total-Pages` header is non-numeric. -/
def nanHeaderServer : Nat → PageResp Nat := fun _ => ⟨some "total", some [5]⟩

/-- Witness for C10: against a server answering a non-numeric
`X-Total-Pages`, the request returns only the first page. -/
theorem makePaginatedRequest_nan_header_witness :
    jsParseInt (nanHeaderServer 1).xTotalPages = none ∧
    makePaginatedRequest nanHeaderServer none 3 = some ([5], [1]) :=
  ⟨by decide, makePaginatedRequest_nan_header nanHeaderServer none 2 (by decide)⟩

/-! ## C9 : fetchProjectMergeRequests returns at most one record -/

/-- C9: `fetchProjectMergeRequests` passes a maximum page count of 1 while
every paginated request URL asks the server for `per_page=1`; hence, when
the server honors `per_page=1` (its first page carries at most one record),
the call requests exactly page 1 and returns at most one merge request,
however many the project has. -/
theorem fetchProjectMergeRequests_at_most_one {T : Type}
    (server : Nat → PageResp T) (fuel : Nat)
    (hsrv : ((server 1).body.getD []).length ≤ 1) :
    fetchProjectMergeRequests server (fuel + 1)
      = some ((server 1).body.getD [], [1]) ∧
    ((server 1).body.getD []).length ≤ 1 ∧
    (∀ pid p, requestUrl (mergeRequestsUrl pid) p []
        = mergeRequestsUrl pid ++ "?page=" ++ toString p ++ "&per_page=1") := by
  refine ⟨?_, hsrv, ?_⟩
  · have hg : pageGuard server (pageLimitOf (some 1)) 1 = false := by
      unfold pageGuard pageLimitOf ltPageLimit
      simp
    rcases hb : (server 1).body with _ | r <;>
      simp [fetchProjectMergeRequests, makePaginatedRequest, paginatedLoop, hg, hb]
  · intro pid p
    unfold requestUrl
    simp [String.intercalate]

/-- A server honoring `per_page=1`: one record on its single page. -/
def singlePageServer : Nat → PageResp Nat := fun _ => ⟨some "1", some [42]⟩

/-- Witness for C9: one merge request is returned from a single-record
page. -/
theorem fetchProjectMergeRequests_at_most_one_witness :
    ((singlePageServer 1).body.getD []).length ≤ 1 ∧
    fetchProjectMergeRequests singlePageServer 3 = some ([42], [1]) :=
  ⟨by decide,
    (fetchProjectMergeRequests_at_most_one singlePageServer 2 (by decide)).1⟩

/-! ## C7 : pagination with a positive cap -/

/-- Characterization of the page loop under a positive finite page limit
`n`: starting after `page` fetched pages (with `page < n` and enough fuel),
the loop terminates at some page `k ≤ n`, having requested exactly the
pages `page+1, …, k` in increasing order, pushing each non-null parsed
body; the guard held at every intermediate page and fails at `k`. -/
theorem paginatedLoop_char {T : Type} (server : Nat → PageResp T) (n : Nat) :
    ∀ fuel page acc reqs, page < n → n - page ≤ fuel →
    ∃ k, page < k ∧ k ≤ n ∧
      paginatedLoop server (some (n : Int)) fuel page acc reqs
        = some (acc ++ (List.range' (page + 1) (k - page)).filterMap
              (fun p => (server p).body),
            reqs ++ List.range' (page + 1) (k - page)) ∧
      (∀ q, page < q → q < k → pageGuard server (some (n : Int)) q = true) ∧
      pageGuard server (some (n : Int)) k = false := by
  intro fuel
  induction fuel with
  | zero => intro page acc reqs h1 h2; omega
  | succ fuel ih =>
    intro page acc reqs h1 h2
    by_cases hg : pageGuard server (some (n : Int)) (page + 1) = true
    · have hlt : page + 1 < n := by
        have hg2 := hg
        unfold pageGuard at hg2
        rw [Bool.and_eq_true] at hg2
        have h3 := hg2.2
        unfold ltPageLimit at h3
        simp only [decide_eq_true_eq] at h3
        exact_mod_cast h3
      obtain ⟨k, hk1, hk2, heq, hcont, hstop⟩ :=
        ih (page + 1)
          (match (server (page + 1)).body with
            | some r => acc ++ [r]
            | none => acc)
          (reqs ++ [page + 1]) hlt (by omega)
      refine ⟨k, by omega, hk2, ?_, ?_, hstop⟩
      · rw [paginatedLoop, if_pos hg, heq]
        have hkp : k - page = (k - (page + 1)) + 1 := by omega
        rw [hkp, List.range'_succ]
        rcases hb : (server (page + 1)).body with _ | r <;>
          simp [hb, List.append_assoc]
      · intro q hq1 hq2
        by_cases hq : q = page + 1
        · rw [hq]; exact hg
        · exact hcont q (by omega) hq2
    · rw [Bool.not_eq_true] at hg
      refine ⟨page + 1, by omega, by omega, ?_, ?_, hg⟩
      · rw [paginatedLoop, if_neg (by simp [hg])]
        have hkp : page + 1 - page = 1 := by omega
        rw [hkp, List.range'_one]
        rcases hb : (server (page + 1)).body with _ | r <;> simp [hb]
      · intro q hq1 hq2; omega

/-- C7 (amended): for every positive supplied maximum page count `n ≥ 1`
(the code treats a supplied cap of `0` as no cap, see the counterexample)
and sufficient fuel, `makePaginatedRequest` requests exactly the pages
`1, …, k` in increasing order for some `k ≤ n` — so at most `n` pages are
requested — stopping at the first page where the guard against the
server-reported total page count or the cap fails, and returns the
flattened concatenation of the per-page parsed record sequences in page
order. -/
theorem makePaginatedRequest_capped {T : Type} (server : Nat → PageResp T)
    (n : Nat) (hn : 1 ≤ n) (fuel : Nat) (hf : n ≤ fuel) :
    ∃ k, 1 ≤ k ∧ k ≤ n ∧
      makePaginatedRequest server (some (n : Int)) fuel
        = some (((List.range' 1 k).filterMap (fun p => (server p).body)).flatten,
            List.range' 1 k) ∧
      (∀ q, 1 ≤ q → q < k → pageGuard server (some (n : Int)) q = true) ∧
      pageGuard server (some (n : Int)) k = false := by
  have hpl : pageLimitOf (some (n : Int)) = some (n : Int) := by
    show (if (n : Int) = 0 then none else some (n : Int)) = some (n : Int)
    rw [if_neg]
    intro h0
    omega
  obtain ⟨k, hk1, hk2, heq, hcont, hstop⟩ :=
    paginatedLoop_char server n fuel 0 [] [] (by omega) (by omega)
  refine ⟨k, by omega, hk2, ?_, hcont, hstop⟩
  unfold makePaginatedRequest
  rw [hpl, heq]
  simp

/-- The counterexample server for the cap-0 behaviour: every response
reports 2 total pages and one record. -/
def capZeroServer : Nat → PageResp Nat := fun _ => ⟨some "2", some [7]⟩

/-- C7 counterexample: with a supplied maximum page count of `0`, the code
evaluates `maxPages || Infinity` to no limit at all and requests 2 pages
(the server-reported total), so "at most `n` pages are requested whenever a
cap `n` is supplied" fails at `n = 0`. -/
theorem makePaginatedRequest_cap_zero :
    makePaginatedRequest capZeroServer (some 0) 5 = some ([7, 7], [1, 2]) ∧
    ¬ (([1, 2] : List Nat).length ≤ 0) :=
  ⟨by decide, by decide⟩

/-- A server reporting 3 total pages with one record per page. -/
def cappedServer : Nat → PageResp Nat := fun p => ⟨some "3", some [p]⟩

/-- Witness for C7 (amended) at cap 2 against a 3-page server: exactly the
pages 1 and 2 are requested, in order, and their records are returned
flattened. -/
theorem makePaginatedRequest_capped_witness :
    makePaginatedRequest cappedServer (some ((2 : Nat) : Int)) 5
      = some ([1, 2], [1, 2]) := by
  obtain ⟨k, hk1, hk2, heq, hcont, hstop⟩ :=
    makePaginatedRequest_capped cappedServer 2 (by decide) 5 (by decide)
  have hk : k = 2 := by
    rcases (by omega : k = 1 ∨ k = 2) with h | h
    · exfalso
      rw [h] at hstop
      have hg1 : pageGuard cappedServer (some (2 : Int)) 1 = true := by decide
      exact absurd (hg1.symm.trans hstop) (by decide)
    · exact h
  rw [hk] at heq
  rw [heq]
  decide

end GraphGitlab
